import Mathlib

/-!
# Verification of the messenger WebSocket relay server

Shallow embedding of the server half of `src/messenger/client/app.js`
(the "Messenger Server" section, lines 700-1097) and of the client-side
crypto wrapper `shared/crypto.js` (`src/unnamed/part_007`).

The server keeps two process-wide JavaScript `Map`s:

* `clients : Map<clientId, {ws, userId, roomId}>`
* `rooms   : Map<roomId, Set<clientId>>`

JavaScript `Map` and `Set` iterate in insertion order and `Map.set`
updates an existing key in place, so both are embedded as association
lists (`List (String × _)`) with first-match lookup, in-place update and
first-match deletion.  Outbound `ws.send(JSON.stringify(env))` calls are
modelled as a list of `(clientId, envelope)` pairs produced by each
handler; `JSON.stringify` is deterministic, so two sends carry identical
bytes exactly when they carry the same envelope value and one `Date.now`
result.  `Date.now()` is threaded as an explicit `now : Nat` parameter.
A connection present in `clients` always has `ws.readyState === 1`: the
`close` handler removes the entry synchronously, and frames are handled
one at a time to completion.

The server guards on the nullable string fields `userId`/`roomId` with
JavaScript truthiness (`if (client.roomId)`, `!client.userId`, ...), and
in JavaScript both `null` and the empty string `''` are falsy; `truthy`
models `ToBoolean` on these fields.  The distinction is observable:
`register` accepts `userId: ''` (no guard, acks `registered`) and
`join-room` accepts `roomId: ''`, after which the falsy guards skip the
leave-before-join, the chat broadcast, the user-left broadcast and the
close-time cleanup for that connection.
-/

namespace Messenger

/-- First-match lookup in an association list, as `Map.get`. -/
def mfind {α : Type} (k : String) : List (String × α) → Option α
  | [] => none
  | (k', v) :: t => if k' = k then some v else mfind k t

/-- `Map.set`: update the first entry with this key in place, else append. -/
def mset {α : Type} (k : String) (v : α) : List (String × α) → List (String × α)
  | [] => [(k, v)]
  | (k', v') :: t => if k' = k then (k, v) :: t else (k', v') :: mset k v t

/-- `Map.delete`: remove the first entry with this key. -/
def merase {α : Type} (k : String) : List (String × α) → List (String × α)
  | [] => []
  | (k', v') :: t => if k' = k then t else (k', v') :: merase k t

@[simp] theorem mfind_nil {α : Type} (k : String) : mfind k ([] : List (String × α)) = none := rfl

@[simp] theorem mfind_cons {α : Type} (k k' : String) (v : α) (t : List (String × α)) :
    mfind k ((k', v) :: t) = if k' = k then some v else mfind k t := rfl

@[simp] theorem mfind_mset_self {α : Type} (k : String) (v : α) (l : List (String × α)) :
    mfind k (mset k v l) = some v := by
  induction l with
  | nil => simp [mset]
  | cons h t ih =>
    obtain ⟨k', v'⟩ := h
    by_cases hk : k' = k <;> simp [mset, hk, ih]

theorem mfind_mset_ne {α : Type} {k k' : String} (v : α) (l : List (String × α))
    (h : k ≠ k') : mfind k' (mset k v l) = mfind k' l := by
  induction l with
  | nil => simp [mset, mfind, h]
  | cons hd t ih =>
    obtain ⟨k₀, v₀⟩ := hd
    by_cases hk : k₀ = k
    · subst hk
      simp [mset, mfind, h]
    · simp [mset, hk, mfind, ih]

theorem mfind_merase_ne {α : Type} {k k' : String} (l : List (String × α))
    (h : k ≠ k') : mfind k' (merase k l) = mfind k' l := by
  induction l with
  | nil => simp [merase]
  | cons hd t ih =>
    obtain ⟨k₀, v₀⟩ := hd
    by_cases hk : k₀ = k
    · subst hk
      simp [merase, mfind, h]
    · simp [merase, hk, mfind, ih]

/-- Keys of an association list. -/
def mkeys {α : Type} (l : List (String × α)) : List String := l.map Prod.fst

@[simp] theorem mkeys_nil {α : Type} : mkeys ([] : List (String × α)) = [] := rfl

@[simp] theorem mkeys_cons {α : Type} (k : String) (v : α) (t : List (String × α)) :
    mkeys ((k, v) :: t) = k :: mkeys t := rfl

theorem mfind_eq_none_of_not_mem_mkeys {α : Type} {k : String} {l : List (String × α)}
    (h : k ∉ mkeys l) : mfind k l = none := by
  induction l with
  | nil => rfl
  | cons hd t ih =>
    obtain ⟨k₀, v₀⟩ := hd
    have h1 : k₀ ≠ k := fun he => h (by simp [he])
    have h2 : k ∉ mkeys t := fun hm => h (by simp [hm])
    simp [mfind, h1, ih h2]

theorem mem_mkeys_of_mfind_eq_some {α : Type} {k : String} {v : α} {l : List (String × α)}
    (h : mfind k l = some v) : k ∈ mkeys l := by
  induction l with
  | nil => simp [mfind] at h
  | cons hd t ih =>
    obtain ⟨k₀, v₀⟩ := hd
    by_cases hk : k₀ = k
    · simp [hk]
    · rw [mfind_cons, if_neg hk] at h
      simpa using Or.inr (ih h)

theorem mfind_merase_self {α : Type} {k : String} {l : List (String × α)}
    (h : (mkeys l).Nodup) : mfind k (merase k l) = none := by
  induction l with
  | nil => rfl
  | cons hd t ih =>
    obtain ⟨k₀, v₀⟩ := hd
    rw [mkeys_cons, List.nodup_cons] at h
    by_cases hk : k₀ = k
    · subst hk
      simpa [merase] using mfind_eq_none_of_not_mem_mkeys h.1
    · simp [merase, hk, mfind, hk, ih h.2]

theorem mkeys_mset {α : Type} (k : String) (v : α) (l : List (String × α)) :
    mkeys (mset k v l) = if k ∈ mkeys l then mkeys l else mkeys l ++ [k] := by
  induction l with
  | nil => simp [mset]
  | cons hd t ih =>
    obtain ⟨k₀, v₀⟩ := hd
    by_cases hk : k₀ = k
    · subst hk
      simp [mset]
    · by_cases hm : k ∈ mkeys t
      · simp [mset, hk, ih, hm, Ne.symm hk]
      · simp [mset, hk, ih, hm, Ne.symm hk]

theorem mkeys_mset_nodup {α : Type} {k : String} {v : α} {l : List (String × α)}
    (h : (mkeys l).Nodup) : (mkeys (mset k v l)).Nodup := by
  rw [mkeys_mset]
  by_cases hm : k ∈ mkeys l
  · simpa [hm] using h
  · rw [if_neg hm]
    exact h.append (List.nodup_singleton k)
      (by simpa [List.disjoint_singleton] using hm)

theorem mkeys_merase_sublist {α : Type} (k : String) (l : List (String × α)) :
    (mkeys (merase k l)).Sublist (mkeys l) := by
  induction l with
  | nil => simp [merase]
  | cons hd t ih =>
    obtain ⟨k₀, v₀⟩ := hd
    by_cases hk : k₀ = k
    · rw [merase, if_pos hk, mkeys_cons]
      exact (List.sublist_cons_self _ _)
    · rw [merase, if_neg hk, mkeys_cons, mkeys_cons]
      exact ih.cons₂ _

theorem mkeys_merase_nodup {α : Type} {k : String} {l : List (String × α)}
    (h : (mkeys l).Nodup) : (mkeys (merase k l)).Nodup :=
  (mkeys_merase_sublist k l).nodup h

/-- One entry of the `clients` map: `{ ws, userId: null, roomId: null }`.
The `ws` handle is identified with the map key (the connection id). -/
structure Client where
  userId : Option String
  roomId : Option String
deriving DecidableEq, Repr

/-- The two process-wide maps of the server (`const clients`, `const rooms`).
A room's `Set` of client ids is an insertion-ordered duplicate-free list. -/
structure ServerState where
  clients : List (String × Client)
  rooms : List (String × List String)
deriving DecidableEq, Repr

/-- `clients = new Map(); rooms = new Map()` at process start. -/
def initState : ServerState := ⟨[], []⟩

/-- The three webrtc signaling types sharing `handleWebRTCSignaling`. -/
inductive WType where
  | offer
  | answer
  | iceCandidate
deriving DecidableEq, Repr

/-- Server→client envelopes, one constructor per `JSON.stringify({type: ...})`
site in the server.  Fields mirror the object literals in the source. -/
inductive OutMsg where
  | connected (clientId : String) (timestamp : Nat)
  | error (error : String)
  | registered (userId : String) (timestamp : Nat)
  | joinedRoom (roomId : String) (users : List String) (timestamp : Nat)
  | userJoined (userId : String) (timestamp : Nat)
  | userLeft (userId : String) (timestamp : Nat)
  | chatMessage (userId : Option String) (message : String) (encrypted : Bool) (timestamp : Nat)
  | webrtc (w : WType) (fromUserId : Option String) (data : String) (timestamp : Nat)
  | incomingCall (fromUserId : Option String) (callType : String) (timestamp : Nat)
  | callResponse (fromUserId : Option String) (accepted : Bool) (timestamp : Nat)
  | callEnded (fromUserId : Option String) (timestamp : Nat)
deriving DecidableEq, Repr

/-- Client→server envelopes after JSON parsing, keyed by the `type` field of
`handleMessage`'s switch; `unknown` covers the `default:` branch. -/
inductive InMsg where
  | register (userId : String)
  | joinRoom (roomId : String)
  | leaveRoom
  | chatMessage (message : String) (encrypted : Bool)
  | webrtc (w : WType) (targetUserId : String) (data : String)
  | callUser (targetUserId : String) (callType : String)
  | callResponse (targetUserId : String) (accepted : Bool)
  | endCall (targetUserId : String)
  | unknown (type_ : String)
deriving DecidableEq, Repr

/-- One `ws.send(JSON.stringify(env))`: recipient connection id and envelope.
Identical envelope values serialize to identical bytes. -/
abbrev Send := String × OutMsg

/-- JavaScript `ToBoolean` of a nullable string field: `null` (and
`undefined`) and the empty string are falsy, every other string truthy.
`if (client.roomId)` is `if truthy c.roomId`; `if (!client.userId) return`
is the `else` of `if truthy c.userId`. -/
def truthy : Option String → Bool
  | none => false
  | some s => s ≠ ""

/-- `.filter(Boolean)` over an array of nullable strings: drops `null`,
`undefined` and `''`. -/
def filterBoolean (l : List (Option String)) : List String :=
  l.filterMap (fun u? =>
    match u? with
    | some u => if u = "" then none else some u
    | none => none)

/-- `findClientByUserId`: linear scan over `clients.entries()` in insertion
order, first entry whose `userId === userId`; also returns the key so the
resulting `targetClient.ws.send` can be attributed. -/
def findClientByUserId (userId : String) : List (String × Client) → Option (String × Client)
  | [] => none
  | (cid, c) :: t =>
    if c.userId = some userId then some (cid, c) else findClientByUserId userId t

/-- `broadcastToRoom(roomId, message, excludeClientId)`: serialize once, send
to every member except the excluded one whose client record exists (a record
in `clients` is an open socket, see module docstring). -/
def broadcastToRoom (st : ServerState) (roomId : String) (message : OutMsg)
    (excludeClientId : Option String := none) : List Send :=
  match mfind roomId st.rooms with
  | none => []
  | some room =>
    (room.filter (fun cId => excludeClientId ≠ some cId)).filterMap
      (fun cId => match mfind cId st.clients with
        | some _ => some (cId, message)
        | none => none)

/-- `leaveRoom(clientId, roomId)`: delete the member, notify the remaining
members (`user-left`, no exclusion — the leaver is already out of the set)
when the leaver's `userId` is truthy (`if (client && client.userId)`),
delete the room if it became empty, null the client's `roomId`. -/
def leaveRoom (now : Nat) (clientId roomId : String) (st : ServerState) :
    ServerState × List Send :=
  let client? := mfind clientId st.clients
  let nullRoom : ServerState → ServerState := fun s =>
    match client? with
    | some c => { s with clients := mset clientId { c with roomId := none } s.clients }
    | none => s
  match mfind roomId st.rooms with
  | some room =>
    let room' := room.erase clientId
    let st1 : ServerState := { st with rooms := mset roomId room' st.rooms }
    let sends : List Send :=
      match client? with
      | some c =>
        if truthy c.userId then
          broadcastToRoom st1 roomId (.userLeft (c.userId.getD "") now)
        else []
      | none => []
    let st2 : ServerState :=
      if room'.length = 0 then { st1 with rooms := merase roomId st1.rooms } else st1
    (nullRoom st2, sends)
  | none => (nullRoom st, [])

/-- `handleRegister(clientId, userId)`. -/
def handleRegister (now : Nat) (clientId userId : String) (st : ServerState) :
    ServerState × List Send :=
  match mfind clientId st.clients with
  | some c =>
    ({ st with clients := mset clientId { c with userId := some userId } st.clients },
      [(clientId, .registered userId now)])
  | none => (st, [])

/-- `handleJoinRoom(clientId, roomId)`.  `none` is the `TypeError` thrown by
`client.ws.send` in the error branch when `client` is `undefined` (the branch
guard is `!client || !client.userId`, truthiness on `userId`).  The
leave-before-join runs only when the current `roomId` is truthy
(`if (client.roomId)`), and the presence list drops falsy `userId`s
(`.filter(Boolean)`). -/
def handleJoinRoom (now : Nat) (clientId roomId : String) (st : ServerState) :
    Option (ServerState × List Send) :=
  match mfind clientId st.clients with
  | none => none
  | some c =>
    if truthy c.userId then
      let lr : ServerState × List Send :=
        if truthy c.roomId then leaveRoom now clientId (c.roomId.getD "") st
        else (st, [])
      let st1 := lr.1
      let sends1 := lr.2
      let room0 := (mfind roomId st1.rooms).getD []
      let room1 := if clientId ∈ room0 then room0 else room0 ++ [clientId]
      let st2 : ServerState := { st1 with rooms := mset roomId room1 st1.rooms }
      let c1 := { c with roomId := some roomId }
      let st3 : ServerState := { st2 with clients := mset clientId c1 st2.clients }
      let usersInRoom :=
        filterBoolean (room1.map (fun cId => (mfind cId st3.clients).bind Client.userId))
      let joinAck : Send := (clientId, .joinedRoom roomId usersInRoom now)
      let notify := broadcastToRoom st3 roomId
        (.userJoined (c.userId.getD "") now) (some clientId)
      some (st3, sends1 ++ [joinAck] ++ notify)
    else some (st, [(clientId, .error "Must register before joining room")])

/-- `handleLeaveRoom(clientId)`: `if (client && client.roomId)` — a falsy
`roomId` (null or `''`) means no leave at all. -/
def handleLeaveRoom (now : Nat) (clientId : String) (st : ServerState) :
    ServerState × List Send :=
  match mfind clientId st.clients with
  | some c =>
    if truthy c.roomId then leaveRoom now clientId (c.roomId.getD "") st
    else (st, [])
  | none => (st, [])

/-- `handleChatMessage(clientId, message)`.  `none` is again the `TypeError`
of `client.ws.send` with `client` `undefined` in the `!client || !client.roomId`
error branch; a falsy `roomId` (null or `''`) takes the error branch. -/
def handleChatMessage (now : Nat) (clientId : String) (message : String)
    (encrypted : Bool) (st : ServerState) : Option (ServerState × List Send) :=
  match mfind clientId st.clients with
  | none => none
  | some c =>
    if truthy c.roomId then
      some (st, broadcastToRoom st (c.roomId.getD "")
        (.chatMessage c.userId message encrypted now))
    else some (st, [(clientId, .error "Must be in a room to send messages")])

/-- `handleWebRTCSignaling(clientId, message)`: silently returns unless the
sender's `roomId` is truthy; unknown target gets `error`; otherwise forward
with `fromUserId`. -/
def handleWebRTCSignaling (now : Nat) (clientId : String) (w : WType)
    (targetUserId data : String) (st : ServerState) : ServerState × List Send :=
  match mfind clientId st.clients with
  | none => (st, [])
  | some c =>
    if truthy c.roomId then
      match findClientByUserId targetUserId st.clients with
      | none => (st, [(clientId, .error "Target user not found")])
      | some (targetCid, _) =>
        (st, [(targetCid, .webrtc w c.userId data now)])
    else (st, [])

/-- `handleCallUser(clientId, message)`: silently returns unless the sender's
`userId` is truthy; unknown target gets `error`; otherwise the target
receives `incoming-call`. -/
def handleCallUser (now : Nat) (clientId targetUserId callType : String)
    (st : ServerState) : ServerState × List Send :=
  match mfind clientId st.clients with
  | none => (st, [])
  | some c =>
    if truthy c.userId then
      match findClientByUserId targetUserId st.clients with
      | none => (st, [(clientId, .error "Target user not found")])
      | some (targetCid, _) =>
        (st, [(targetCid, .incomingCall c.userId callType now)])
    else (st, [])

/-- `handleCallResponse(clientId, message)`: silently returns unless the
sender's `userId` is truthy; an unknown target is also dropped silently
(`if (!targetClient) return;` — no error envelope). -/
def handleCallResponse (now : Nat) (clientId targetUserId : String)
    (accepted : Bool) (st : ServerState) : ServerState × List Send :=
  match mfind clientId st.clients with
  | none => (st, [])
  | some c =>
    if truthy c.userId then
      match findClientByUserId targetUserId st.clients with
      | none => (st, [])
      | some (targetCid, _) =>
        (st, [(targetCid, .callResponse c.userId accepted now)])
    else (st, [])

/-- `handleEndCall(clientId, message)`: silently returns unless the sender's
`userId` is truthy; an unknown target is dropped silently. -/
def handleEndCall (now : Nat) (clientId targetUserId : String)
    (st : ServerState) : ServerState × List Send :=
  match mfind clientId st.clients with
  | none => (st, [])
  | some c =>
    if truthy c.userId then
      match findClientByUserId targetUserId st.clients with
      | none => (st, [])
      | some (targetCid, _) =>
        (st, [(targetCid, .callEnded c.userId now)])
    else (st, [])

/-- `handleMessage(clientId, message)`: early return when the client record is
gone, then the `switch` on `message.type`.  `none` propagates a handler
`TypeError` (never reached, see the safety theorem). -/
def handleMessage (now : Nat) (clientId : String) (msg : InMsg) (st : ServerState) :
    Option (ServerState × List Send) :=
  match mfind clientId st.clients with
  | none => some (st, [])
  | some _ =>
    match msg with
    | .register userId => some (handleRegister now clientId userId st)
    | .joinRoom roomId => handleJoinRoom now clientId roomId st
    | .leaveRoom => some (handleLeaveRoom now clientId st)
    | .chatMessage m e => handleChatMessage now clientId m e st
    | .webrtc w t d => some (handleWebRTCSignaling now clientId w t d st)
    | .callUser t ct => some (handleCallUser now clientId t ct st)
    | .callResponse t a => some (handleCallResponse now clientId t a st)
    | .endCall t => some (handleEndCall now clientId t st)
    | .unknown _ => some (st, [])

/-- An inbound text frame: either it parses to an envelope or `JSON.parse`
throws. -/
inductive Frame where
  | parsed (msg : InMsg)
  | malformed
deriving DecidableEq, Repr

/-- The `ws.on('message')` handler: parse failure answers the sender alone
with `{type:'error', error:'Invalid message format'}`. -/
def handleRawFrame (now : Nat) (clientId : String) (f : Frame) (st : ServerState) :
    Option (ServerState × List Send) :=
  match f with
  | .malformed => some (st, [(clientId, .error "Invalid message format")])
  | .parsed msg => handleMessage now clientId msg st

/-- `wss.on('connection')`: insert a fresh record, send `connected`. -/
def connectClient (now : Nat) (clientId : String) (st : ServerState) :
    ServerState × List Send :=
  ({ st with clients := mset clientId ⟨none, none⟩ st.clients },
    [(clientId, .connected clientId now)])

/-- `ws.on('close')`: `if (client && client.roomId)` — leave only when the
stored `roomId` is truthy (a member of room `''` is left behind as a stale
member), then delete the record. -/
def closeClient (now : Nat) (clientId : String) (st : ServerState) :
    ServerState × List Send :=
  let lr : ServerState × List Send :=
    match mfind clientId st.clients with
    | some c =>
      if truthy c.roomId then leaveRoom now clientId (c.roomId.getD "") st
      else (st, [])
    | none => (st, [])
  ({ lr.1 with clients := merase clientId lr.1.clients }, lr.2)

/-- State reached by an event, keeping only the state (a crashed handler —
which the safety theorem rules out — would leave the state as is, the
exception being caught by the frame handler's `try`). -/
def stepFrame (now : Nat) (clientId : String) (f : Frame) (st : ServerState) :
    ServerState :=
  ((handleRawFrame now clientId f st).map Prod.fst).getD st

/-- Server states reachable from process start by any interleaving of
connection opens (with a fresh server-generated id), handled frames, and
transport closes. -/
inductive Reachable : ServerState → Prop where
  | init : Reachable initState
  | connect {st : ServerState} (now : Nat) (clientId : String) :
      Reachable st → mfind clientId st.clients = none →
      Reachable (connectClient now clientId st).1
  | frame {st : ServerState} (now : Nat) (clientId : String) (f : Frame) :
      Reachable st → Reachable (stepFrame now clientId f st)
  | close {st : ServerState} (now : Nat) (clientId : String) :
      Reachable st → Reachable (closeClient now clientId st).1

/-! ## The room-directory invariant

With the truthiness guards modelled faithfully, the pointer coherence
between a client's `roomId` and the member sets does *not* hold (a join
from room `''` skips the leave, and a close with `roomId = ''` leaks a
stale member), so the invariant proved here is only what the source
actually maintains on every path: map keys are unique, and every room's
member set is duplicate-free and non-empty — rooms are created with their
first member and deleted the moment they empty. -/

/-- The invariant every handler maintains: unique map keys, duplicate-free
and non-empty member sets. -/
structure WF (st : ServerState) : Prop where
  clientsNodup : (mkeys st.clients).Nodup
  roomsNodup : (mkeys st.rooms).Nodup
  memNodup : ∀ r mem, mfind r st.rooms = some mem → mem.Nodup
  memNonempty : ∀ r mem, mfind r st.rooms = some mem → mem ≠ []

theorem WF_initState : WF initState := by
  refine ⟨?_, ?_, ?_, ?_⟩ <;> simp [initState]

theorem connectClient_WF {st : ServerState} {cid : String} (hwf : WF st)
    (now : Nat) : WF (connectClient now cid st).1 :=
  ⟨mkeys_mset_nodup hwf.clientsNodup, hwf.roomsNodup, hwf.memNodup,
    hwf.memNonempty⟩

theorem handleRegister_WF {st : ServerState} {cid uid : String} (hwf : WF st)
    (now : Nat) : WF (handleRegister now cid uid st).1 := by
  unfold handleRegister
  split
  · exact ⟨mkeys_mset_nodup hwf.clientsNodup, hwf.roomsNodup, hwf.memNodup,
      hwf.memNonempty⟩
  · exact hwf

/-- The clients map `leaveRoom` returns, in closed form. -/
theorem leaveRoom_clients (now : Nat) (cid r0 : String) (st : ServerState) :
    (leaveRoom now cid r0 st).1.clients =
      match mfind cid st.clients with
      | some c => mset cid { c with roomId := none } st.clients
      | none => st.clients := by
  unfold leaveRoom
  cases hc : mfind cid st.clients <;> cases hmem : mfind r0 st.rooms <;>
    simp [hc, hmem] <;> split <;> rfl

/-- The rooms map `leaveRoom` returns, in closed form. -/
theorem leaveRoom_rooms (now : Nat) (cid r0 : String) (st : ServerState) :
    (leaveRoom now cid r0 st).1.rooms =
      match mfind r0 st.rooms with
      | some mem =>
        if (mem.erase cid).length = 0
          then merase r0 (mset r0 (mem.erase cid) st.rooms)
          else mset r0 (mem.erase cid) st.rooms
      | none => st.rooms := by
  unfold leaveRoom
  cases hc : mfind cid st.clients <;> cases hmem : mfind r0 st.rooms <;>
    simp [hc, hmem] <;> split <;> rfl

/-- `leaveRoom` preserves the invariant, whatever its arguments. -/
theorem leaveRoom_WF {st : ServerState} {cid r0 : String} (hwf : WF st)
    (now : Nat) : WF (leaveRoom now cid r0 st).1 := by
  have hrooms : ∀ r mem', mfind r (leaveRoom now cid r0 st).1.rooms = some mem' →
      mem'.Nodup ∧ mem' ≠ [] := by
    intro r mem' hm
    rw [leaveRoom_rooms] at hm
    cases hmem : mfind r0 st.rooms with
    | none =>
      simp only [hmem] at hm
      exact ⟨hwf.memNodup r mem' hm, hwf.memNonempty r mem' hm⟩
    | some mem =>
      simp only [hmem] at hm
      by_cases hne : r = r0
      · subst hne
        by_cases h0 : (mem.erase cid).length = 0
        · rw [if_pos h0, mfind_merase_self (mkeys_mset_nodup hwf.roomsNodup)] at hm
          exact Option.noConfusion hm
        · rw [if_neg h0, mfind_mset_self] at hm
          cases Option.some.inj hm
          exact ⟨(hwf.memNodup _ mem hmem).erase cid,
            fun he => h0 (by rw [he]; rfl)⟩
      · have hr : mfind r (if (mem.erase cid).length = 0
            then merase r0 (mset r0 (mem.erase cid) st.rooms)
            else mset r0 (mem.erase cid) st.rooms) = mfind r st.rooms := by
          by_cases h0 : (mem.erase cid).length = 0
          · rw [if_pos h0, mfind_merase_ne _ (fun he => hne he.symm),
              mfind_mset_ne _ _ (fun he => hne he.symm)]
          · rw [if_neg h0, mfind_mset_ne _ _ (fun he => hne he.symm)]
        rw [hr] at hm
        exact ⟨hwf.memNodup r mem' hm, hwf.memNonempty r mem' hm⟩
  refine ⟨?_, ?_, fun r mem' hm => (hrooms r mem' hm).1,
    fun r mem' hm => (hrooms r mem' hm).2⟩
  · rw [leaveRoom_clients]
    cases hc : mfind cid st.clients with
    | some c => exact mkeys_mset_nodup hwf.clientsNodup
    | none => exact hwf.clientsNodup
  · rw [leaveRoom_rooms]
    cases hmem : mfind r0 st.rooms with
    | none => exact hwf.roomsNodup
    | some mem =>
      by_cases h0 : (mem.erase cid).length = 0
      · simpa [h0] using mkeys_merase_nodup (mkeys_mset_nodup hwf.roomsNodup)
      · simpa [h0] using mkeys_mset_nodup hwf.roomsNodup


/-- Updating a client record and adding it to a room's member set (the
tail of `handleJoinRoom`) preserves the invariant. -/
theorem mset_room_WF {st1 : ServerState} {r cid : String} {c2 : Client}
    (hwf : WF st1) :
    WF ⟨mset cid c2 st1.clients,
        mset r (if cid ∈ (mfind r st1.rooms).getD [] then (mfind r st1.rooms).getD []
          else (mfind r st1.rooms).getD [] ++ [cid]) st1.rooms⟩ := by
  have hnd0 : ((mfind r st1.rooms).getD []).Nodup := by
    cases hm : mfind r st1.rooms with
    | none => simp
    | some mem => simpa using hwf.memNodup r mem hm
  refine ⟨mkeys_mset_nodup hwf.clientsNodup, mkeys_mset_nodup hwf.roomsNodup, ?_, ?_⟩
  · intro r' mem' hm
    by_cases hne : r' = r
    · subst hne
      rw [mfind_mset_self] at hm
      cases Option.some.inj hm
      by_cases hmem : cid ∈ (mfind r' st1.rooms).getD []
      · simpa [hmem] using hnd0
      · rw [if_neg hmem]
        exact hnd0.append (List.nodup_singleton cid)
          (by simpa [List.disjoint_singleton] using hmem)
    · rw [mfind_mset_ne _ _ (fun hx => hne hx.symm)] at hm
      exact hwf.memNodup r' mem' hm
  · intro r' mem' hm
    by_cases hne : r' = r
    · subst hne
      rw [mfind_mset_self] at hm
      cases Option.some.inj hm
      by_cases hmem : cid ∈ (mfind r' st1.rooms).getD []
      · rw [if_pos hmem]
        exact List.ne_nil_of_mem hmem
      · rw [if_neg hmem]
        simp
    · rw [mfind_mset_ne _ _ (fun hx => hne hx.symm)] at hm
      exact hwf.memNonempty r' mem' hm

/-- `handleJoinRoom` preserves the invariant. -/
theorem handleJoinRoom_WF {now : Nat} {cid r : String} {st st' : ServerState}
    {sends : List Send} (hwf : WF st)
    (h : handleJoinRoom now cid r st = some (st', sends)) : WF st' := by
  unfold handleJoinRoom at h
  split at h
  · exact Option.noConfusion h
  next c hc =>
    split at h
    · -- truthy userId: the join itself
      have hwf1 : WF (if truthy c.roomId then
          leaveRoom now cid (c.roomId.getD "") st else (st, [])).1 := by
        by_cases htr : truthy c.roomId
        · simpa [htr] using leaveRoom_WF hwf now
        · simpa [htr] using hwf
      have hst : st' =
          ⟨mset cid { c with roomId := some r }
              (if truthy c.roomId then
                leaveRoom now cid (c.roomId.getD "") st else (st, [])).1.clients,
            mset r
              (if cid ∈ (mfind r (if truthy c.roomId then
                    leaveRoom now cid (c.roomId.getD "") st else (st, [])).1.rooms).getD []
                then (mfind r (if truthy c.roomId then
                    leaveRoom now cid (c.roomId.getD "") st else (st, [])).1.rooms).getD []
                else (mfind r (if truthy c.roomId then
                    leaveRoom now cid (c.roomId.getD "") st else (st, [])).1.rooms).getD []
                  ++ [cid])
              (if truthy c.roomId then
                leaveRoom now cid (c.roomId.getD "") st else (st, [])).1.rooms⟩ :=
        (congrArg Prod.fst (Option.some.inj h)).symm
      rw [hst]
      exact mset_room_WF hwf1
    · cases Option.some.inj h
      exact hwf

/-- `handleLeaveRoom` preserves the invariant. -/
theorem handleLeaveRoom_WF {now : Nat} {cid : String} {st : ServerState}
    (hwf : WF st) : WF (handleLeaveRoom now cid st).1 := by
  unfold handleLeaveRoom
  split
  · split
    · exact leaveRoom_WF hwf now
    · exact hwf
  · exact hwf

/-- Deleting a client record preserves the invariant. -/
theorem deleteClient_WF {st : ServerState} {cid : String} (hwf : WF st) :
    WF ⟨merase cid st.clients, st.rooms⟩ :=
  ⟨mkeys_merase_nodup hwf.clientsNodup, hwf.roomsNodup, hwf.memNodup,
    hwf.memNonempty⟩

/-- The transport-close cleanup preserves the invariant. -/
theorem closeClient_WF {now : Nat} {cid : String} {st : ServerState}
    (hwf : WF st) : WF (closeClient now cid st).1 := by
  unfold closeClient
  split
  · split
    · exact deleteClient_WF (leaveRoom_WF hwf now)
    · exact deleteClient_WF hwf
  · exact deleteClient_WF hwf

/-- `handleChatMessage` never mutates the state. -/
theorem handleChatMessage_state {now : Nat} {cid m : String} {e : Bool}
    {st st' : ServerState} {sends : List Send}
    (h : handleChatMessage now cid m e st = some (st', sends)) : st' = st := by
  unfold handleChatMessage at h
  split at h
  · exact Option.noConfusion h
  · split at h
    · exact (congrArg Prod.fst (Option.some.inj h)).symm
    · exact (congrArg Prod.fst (Option.some.inj h)).symm

/-- `handleWebRTCSignaling` never mutates the state. -/
theorem handleWebRTCSignaling_state {now : Nat} {cid : String} {w : WType}
    {t d : String} {st : ServerState} :
    (handleWebRTCSignaling now cid w t d st).1 = st := by
  unfold handleWebRTCSignaling
  repeat' split
  all_goals rfl

/-- `handleCallUser` never mutates the state. -/
theorem handleCallUser_state {now : Nat} {cid t ct : String} {st : ServerState} :
    (handleCallUser now cid t ct st).1 = st := by
  unfold handleCallUser
  repeat' split
  all_goals rfl

/-- `handleCallResponse` never mutates the state. -/
theorem handleCallResponse_state {now : Nat} {cid t : String} {a : Bool}
    {st : ServerState} : (handleCallResponse now cid t a st).1 = st := by
  unfold handleCallResponse
  repeat' split
  all_goals rfl

/-- `handleEndCall` never mutates the state. -/
theorem handleEndCall_state {now : Nat} {cid t : String} {st : ServerState} :
    (handleEndCall now cid t st).1 = st := by
  unfold handleEndCall
  repeat' split
  all_goals rfl

/-- Every event step preserves the invariant. -/
theorem stepFrame_WF {now : Nat} {cid : String} {f : Frame} {st : ServerState}
    (hwf : WF st) : WF (stepFrame now cid f st) := by
  cases f with
  | malformed => exact hwf
  | parsed msg =>
    show WF (((handleMessage now cid msg st).map Prod.fst).getD st)
    unfold handleMessage
    cases hfc : mfind cid st.clients with
    | none => exact hwf
    | some c =>
      cases msg with
      | register uid => exact handleRegister_WF hwf now
      | joinRoom r =>
        show WF (((handleJoinRoom now cid r st).map Prod.fst).getD st)
        cases hj : handleJoinRoom now cid r st with
        | none => exact hwf
        | some p =>
          obtain ⟨st', sends⟩ := p
          exact handleJoinRoom_WF hwf hj
      | leaveRoom => exact handleLeaveRoom_WF hwf
      | chatMessage m e =>
        show WF (((handleChatMessage now cid m e st).map Prod.fst).getD st)
        cases hj : handleChatMessage now cid m e st with
        | none => exact hwf
        | some p =>
          obtain ⟨st', sends⟩ := p
          have hse := handleChatMessage_state hj
          show WF st'
          rw [hse]
          exact hwf
      | webrtc w t d =>
        show WF ((handleWebRTCSignaling now cid w t d st).1)
        rw [handleWebRTCSignaling_state]
        exact hwf
      | callUser t ct =>
        show WF ((handleCallUser now cid t ct st).1)
        rw [handleCallUser_state]
        exact hwf
      | callResponse t a =>
        show WF ((handleCallResponse now cid t a st).1)
        rw [handleCallResponse_state]
        exact hwf
      | endCall t =>
        show WF ((handleEndCall now cid t st).1)
        rw [handleEndCall_state]
        exact hwf
      | unknown ty => exact hwf

/-- The invariant holds in every reachable server state. -/
theorem Reachable.wf {st : ServerState} (h : Reachable st) : WF st := by
  induction h with
  | init => exact WF_initState
  | connect now cid _ _ ih => exact connectClient_WF ih now
  | frame now cid f _ ih => exact stepFrame_WF ih
  | close now cid _ ih => exact closeClient_WF ih
/-! ## Concrete reachable states used as witnesses -/

/-- Connection `"A"` opened, registered as `"alice"`, joined room `"r1"`. -/
def stA : ServerState :=
  stepFrame 2 "A" (.parsed (.joinRoom "r1"))
    (stepFrame 1 "A" (.parsed (.register "alice"))
      (connectClient 0 "A" initState).1)

/-- `stA`, then connection `"B"` opened and registered as `"bob"` (no room). -/
def stAB : ServerState :=
  stepFrame 4 "B" (.parsed (.register "bob")) (connectClient 3 "B" stA).1

theorem reachable_stA : Reachable stA :=
  Reachable.frame 2 "A" (.parsed (.joinRoom "r1"))
    (Reachable.frame 1 "A" (.parsed (.register "alice"))
      (Reachable.connect 0 "A" Reachable.init rfl))

theorem reachable_stAB : Reachable stAB :=
  Reachable.frame 4 "B" (.parsed (.register "bob"))
    (Reachable.connect 3 "B" reachable_stA (by decide))

theorem stA_eq : stA = ⟨[("A", ⟨some "alice", some "r1"⟩)], [("r1", ["A"])]⟩ := by
  decide

theorem stAB_eq : stAB =
    ⟨[("A", ⟨some "alice", some "r1"⟩), ("B", ⟨some "bob", none⟩)],
      [("r1", ["A"])]⟩ := by
  decide

/-- `"A"` registers as `"alice"`, joins room `""`, then joins room `"r2"`.
Room `""` is joinable (only `userId` is guarded) but falsy, so the second
join skips the leave-before-join. -/
def stDouble : ServerState :=
  stepFrame 3 "A" (.parsed (.joinRoom "r2"))
    (stepFrame 2 "A" (.parsed (.joinRoom ""))
      (stepFrame 1 "A" (.parsed (.register "alice"))
        (connectClient 0 "A" initState).1))

theorem reachable_stDouble : Reachable stDouble :=
  Reachable.frame 3 "A" (.parsed (.joinRoom "r2"))
    (Reachable.frame 2 "A" (.parsed (.joinRoom ""))
      (Reachable.frame 1 "A" (.parsed (.register "alice"))
        (Reachable.connect 0 "A" Reachable.init rfl)))

/-- `"A"` registers as `"alice"` and joins room `""`. -/
def stEmptyRoom : ServerState :=
  stepFrame 2 "A" (.parsed (.joinRoom ""))
    (stepFrame 1 "A" (.parsed (.register "alice"))
      (connectClient 0 "A" initState).1)

theorem reachable_stEmptyRoom : Reachable stEmptyRoom :=
  Reachable.frame 2 "A" (.parsed (.joinRoom ""))
    (Reachable.frame 1 "A" (.parsed (.register "alice"))
      (Reachable.connect 0 "A" Reachable.init rfl))

/-! ## Claims -/

/-- C1: in every reachable server state — i.e. after every sequence of handled
envelopes and transport closes — a `roomId` is a key of the `rooms` map iff
its member set holds at least one connection id; so any leave (explicit
`leave-room`, join of a different room, or transport close) that empties a
room deletes that room's entry. -/
theorem room_exists_iff_has_member (st : ServerState) (h : Reachable st)
    (r : String) :
    (∃ mem, mfind r st.rooms = some mem) ↔
      (∃ mem cid, mfind r st.rooms = some mem ∧ cid ∈ mem) := by
  constructor
  · rintro ⟨mem, hm⟩
    obtain ⟨cid, hcid⟩ := List.exists_mem_of_ne_nil mem (h.wf.memNonempty r mem hm)
    exact ⟨mem, cid, hm, hcid⟩
  · rintro ⟨mem, cid, hm, -⟩
    exact ⟨mem, hm⟩

/-- C1 witness at the concrete reachable state `stA` and room `"r1"`. -/
theorem room_exists_iff_has_member_witness :
    (∃ mem, mfind "r1" stA.rooms = some mem) ↔
      (∃ mem cid, mfind "r1" stA.rooms = some mem ∧ cid ∈ mem) :=
  room_exists_iff_has_member stA reachable_stA "r1"

/-- C2 (code bug): the claimed at-most-one-room invariant is broken by
the reachable trace "register alice; join-room \"\"; join-room \"r2\"" on
one connection: `if (client.roomId)` (app.js:850) is falsy for `''`, so
the second join skips the leave, leaving the connection a member of both
`rooms['']` and `rooms['r2']` at once, with its stored `roomId` (`"r2"`)
not naming the room `""` it still sits in.  This theorem evaluates the
embedded server on that trace. -/
theorem join_skips_leave_for_empty_room :
    Reachable stDouble ∧
    mfind "A" stDouble.clients = some ⟨some "alice", some "r2"⟩ ∧
    mfind "" stDouble.rooms = some ["A"] ∧
    mfind "r2" stDouble.rooms = some ["A"] ∧
    ("" : String) ≠ "r2" :=
  ⟨reachable_stDouble, by decide, by decide, by decide, by decide⟩

/-- C3 counterexample: in the reachable state `stAB` no connection has
`userId = "nobody"`, yet `call-response` from the registered connection
`"A"` targeting `"nobody"` produces no envelope at all — in particular the
sender does not receive the claimed `error "Target user not found"`
(`handleCallResponse` silently returns on an unknown target, and so does
`handleEndCall`). -/
theorem call_response_unknown_target_silent :
    findClientByUserId "nobody" stAB.clients = none ∧
    handleMessage 9 "A" (.callResponse "nobody" true) stAB = some (stAB, []) ∧
    handleMessage 9 "A" (.endCall "nobody") stAB = some (stAB, []) := by
  refine ⟨by decide, by decide, by decide⟩

/-- C3 amended: when `targetUserId` matches no connection, `call-user`
from a sender with a truthy (non-null, non-empty) `userId` and the
`webrtc-*` family from a sender with a truthy `roomId` answer the sender
alone with `error "Target user not found"`; `call-response` and `end-call`
always drop the envelope silently, and so do `call-user` when the sender's
`userId` is falsy (null or `''`) and `webrtc-*` when the sender's `roomId`
is falsy — no error and no delivery to anyone; the state never changes. -/
theorem target_not_found_policy :
    ∀ (now : Nat) (cid t : String) (st : ServerState) (c : Client),
      mfind cid st.clients = some c →
      findClientByUserId t st.clients = none →
      ((∀ ct uid, c.userId = some uid → uid ≠ "" →
          handleCallUser now cid t ct st =
            (st, [(cid, .error "Target user not found")])) ∧
       (∀ w d r0, c.roomId = some r0 → r0 ≠ "" →
          handleWebRTCSignaling now cid w t d st =
            (st, [(cid, .error "Target user not found")])) ∧
       (∀ a, handleCallResponse now cid t a st = (st, [])) ∧
       handleEndCall now cid t st = (st, []) ∧
       (∀ ct, truthy c.userId = false → handleCallUser now cid t ct st = (st, [])) ∧
       (∀ w d, truthy c.roomId = false →
          handleWebRTCSignaling now cid w t d st = (st, []))) := by
  intro now cid t st c hc hfind
  refine ⟨?_, ?_, ?_, ?_, ?_, ?_⟩
  · intro ct uid hu huid
    simp [handleCallUser, hc, hu, truthy, huid, hfind]
  · intro w d r0 hr0 hrid
    simp [handleWebRTCSignaling, hc, hr0, truthy, hrid, hfind]
  · intro a
    cases htr : truthy c.userId <;> simp [handleCallResponse, hc, htr, hfind]
  · cases htr : truthy c.userId <;> simp [handleEndCall, hc, htr, hfind]
  · intro ct htr
    simp [handleCallUser, hc, htr]
  · intro w d htr
    simp [handleWebRTCSignaling, hc, htr]

/-- C3 amended, witness at `stAB` with unknown target `"nobody"`. -/
theorem target_not_found_policy_witness :
    handleCallUser 9 "A" "nobody" "voice" stAB =
      (stAB, [("A", .error "Target user not found")]) ∧
    handleCallResponse 9 "A" "nobody" true stAB = (stAB, []) :=
  ⟨(target_not_found_policy 9 "A" "nobody" stAB ⟨some "alice", some "r1"⟩
      (by decide) (by decide)).1 "voice" "alice" rfl (by decide),
    (target_not_found_policy 9 "A" "nobody" stAB ⟨some "alice", some "r1"⟩
      (by decide) (by decide)).2.2.1 true⟩

/-- C4 counterexample: in the reachable state `stAB`, `"B"` is registered
as `"bob"` but is in no room, and the target `"alice"` resolves to
connection `"A"`; still `B`'s `webrtc-offer` is not relayed — the handler
returns without sending anything, because `handleWebRTCSignaling` requires
the *sender* to be in a room. -/
theorem webrtc_needs_sender_room :
    mfind "B" stAB.clients = some ⟨some "bob", none⟩ ∧
    findClientByUserId "alice" stAB.clients =
      some ("A", ⟨some "alice", some "r1"⟩) ∧
    handleMessage 9 "B" (.webrtc .offer "alice" "sdp") stAB =
      some (stAB, []) := by
  refine ⟨by decide, by decide, by decide⟩

/-- C4 amended: when `targetUserId` resolves to some connection,
`call-user`, `call-response` and `end-call` from a sender with a truthy
(non-null, non-empty) `userId` are relayed to that connection with
`fromUserId` attached and no room scoping at all — neither party's
`roomId` is consulted; the `webrtc-*` family is relayed under the extra
requirement that the sender's `roomId` is truthy, while the target's room
membership still never matters (the rooms may differ or the target may be
in none).  A sender whose `userId` (resp. `roomId` for `webrtc-*`) is
falsy is silently dropped instead. -/
theorem relay_policy :
    ∀ (now : Nat) (cid t : String) (st : ServerState) (c : Client)
      (tc : String) (tcC : Client),
      mfind cid st.clients = some c →
      findClientByUserId t st.clients = some (tc, tcC) →
      ((∀ ct uid, c.userId = some uid → uid ≠ "" →
          handleCallUser now cid t ct st =
            (st, [(tc, .incomingCall (some uid) ct now)])) ∧
       (∀ a uid, c.userId = some uid → uid ≠ "" →
          handleCallResponse now cid t a st =
            (st, [(tc, .callResponse (some uid) a now)])) ∧
       (∀ uid, c.userId = some uid → uid ≠ "" →
          handleEndCall now cid t st = (st, [(tc, .callEnded (some uid) now)])) ∧
       (∀ w d r0, c.roomId = some r0 → r0 ≠ "" →
          handleWebRTCSignaling now cid w t d st =
            (st, [(tc, .webrtc w c.userId d now)])) ∧
       (∀ ct, truthy c.userId = false → handleCallUser now cid t ct st = (st, [])) ∧
       (∀ a, truthy c.userId = false →
          handleCallResponse now cid t a st = (st, [])) ∧
       (truthy c.userId = false → handleEndCall now cid t st = (st, [])) ∧
       (∀ w d, truthy c.roomId = false →
          handleWebRTCSignaling now cid w t d st = (st, []))) := by
  intro now cid t st c tc tcC hc hfind
  refine ⟨?_, ?_, ?_, ?_, ?_, ?_, ?_, ?_⟩
  · intro ct uid hu huid
    simp [handleCallUser, hc, hu, truthy, huid, hfind]
  · intro a uid hu huid
    simp [handleCallResponse, hc, hu, truthy, huid, hfind]
  · intro uid hu huid
    simp [handleEndCall, hc, hu, truthy, huid, hfind]
  · intro w d r0 hr0 hrid
    simp [handleWebRTCSignaling, hc, hr0, truthy, hrid, hfind]
  · intro ct htr
    simp [handleCallUser, hc, htr]
  · intro a htr
    simp [handleCallResponse, hc, htr]
  · intro htr
    simp [handleEndCall, hc, htr]
  · intro w d htr
    simp [handleWebRTCSignaling, hc, htr]

/-- C4 amended, witness at `stAB`: `"A"` (in room `"r1"`) calls `"bob"`
(in no room) and the envelope is delivered to `"B"`; likewise `"A"`'s
`webrtc-offer` to the roomless `"bob"` is delivered. -/
theorem relay_policy_witness :
    handleCallUser 9 "A" "bob" "voice" stAB =
      (stAB, [("B", .incomingCall (some "alice") "voice" 9)]) ∧
    handleWebRTCSignaling 9 "A" .offer "bob" "sdp" stAB =
      (stAB, [("B", .webrtc .offer (some "alice") "sdp" 9)]) :=
  ⟨(relay_policy 9 "A" "bob" stAB ⟨some "alice", some "r1"⟩ "B"
      ⟨some "bob", none⟩ (by decide) (by decide)).1 "voice" "alice" rfl
      (by decide),
    (relay_policy 9 "A" "bob" stAB ⟨some "alice", some "r1"⟩ "B"
      ⟨some "bob", none⟩ (by decide) (by decide)).2.2.2.1 .offer "sdp" "r1" rfl
      (by decide)⟩

/-- C5 counterexample: a malformed frame is answered with
`error "Invalid message format"` — not with the claimed message
`"Malformed envelope"`. -/
theorem malformed_error_text :
    handleRawFrame 7 "A" .malformed stAB =
      some (stAB, [("A", .error "Invalid message format")]) ∧
    OutMsg.error "Invalid message format" ≠ OutMsg.error "Malformed envelope" := by
  refine ⟨rfl, by decide⟩

/-- C5 amended: every text frame that fails JSON parsing is answered, to
the originating connection only, with an `error` envelope whose message is
`"Invalid message format"`; nothing is delivered to anyone else, the
handler does not crash (the result is `some`), and the state — registry
and room directory — is returned unchanged. -/
theorem malformed_frame_handling :
    ∀ (now : Nat) (cid : String) (st : ServerState),
      handleRawFrame now cid .malformed st =
        some (st, [(cid, .error "Invalid message format")]) := by
  intro now cid st
  rfl

/-- C6 counterexample: in the reachable state `stAB` (`"A"` registered as
`"alice"` in `"r1"`; `"B"` registered as `"bob"`), `"B"`'s `join-room` for
`"r1"` sends `"A"` the expected `user-joined "bob"`, but the `joined-room`
envelope to `"B"` carries `users = ["alice", "bob"]`, not the claimed
`["alice"]`: the member list is computed after the joiner was added. -/
theorem joined_room_users_includes_joiner :
    handleMessage 5 "B" (.joinRoom "r1") stAB =
      some (⟨[("A", ⟨some "alice", some "r1"⟩), ("B", ⟨some "bob", some "r1"⟩)],
          [("r1", ["A", "B"])]⟩,
        [("B", .joinedRoom "r1" ["alice", "bob"] 5),
          ("A", .userJoined "bob" 5)]) ∧
    ["alice", "bob"] ≠ ["alice"] := by
  refine ⟨by decide, by decide⟩

/-- C6 amended: in that scenario `"A"` receives `user-joined "bob"` and
the `joined-room` payload sent to `"B"` lists `users = ["alice", "bob"]`
(the full member list after the join, joiner included). -/
theorem join_scenario_sends :
    ∃ st' : ServerState,
      handleMessage 5 "B" (.joinRoom "r1") stAB =
        some (st',
          [("B", .joinedRoom "r1" ["alice", "bob"] 5),
            ("A", .userJoined "bob" 5)]) :=
  ⟨⟨[("A", ⟨some "alice", some "r1"⟩), ("B", ⟨some "bob", some "r1"⟩)],
      [("r1", ["A", "B"])]⟩, by decide⟩

/-- C7: a `join-room` from a connection that exists but has not registered
(null `userId`) is answered with an `error` envelope to that connection
only, and the returned state is exactly the input state: the rooms map,
the connection's `roomId`, and every other connection are untouched, and
no `user-joined` or `joined-room` envelope is emitted. -/
theorem join_room_requires_register :
    ∀ (now : Nat) (cid r : String) (st : ServerState) (c : Client),
      mfind cid st.clients = some c → c.userId = none →
      handleJoinRoom now cid r st =
        some (st, [(cid, .error "Must register before joining room")]) := by
  intro now cid r st c hc hu
  simp [handleJoinRoom, hc, hu, truthy]

/-- C7 witness: a freshly connected, unregistered `"A"`. -/
theorem join_room_requires_register_witness :
    handleJoinRoom 1 "A" "r1" (connectClient 0 "A" initState).1 =
      some ((connectClient 0 "A" initState).1,
        [("A", .error "Must register before joining room")]) :=
  join_room_requires_register 1 "A" "r1" _ ⟨none, none⟩ (by decide) rfl

/-- C8 (code bug): in the reachable state `stEmptyRoom`, `"A"` sits in
room `""` — a room whose member set has exactly one member — yet its
`chat-message` is answered with `error "Must be in a room to send
messages"` and zero `chat-message` copies are delivered, because
`!client.roomId` (app.js:930) is true for the falsy roomId `''`.  The
claim promises N = 1 copies to the room including the sender. -/
theorem chat_message_errors_in_falsy_room :
    Reachable stEmptyRoom ∧
    mfind "" stEmptyRoom.rooms = some ["A"] ∧
    mfind "A" stEmptyRoom.clients = some ⟨some "alice", some ""⟩ ∧
    handleChatMessage 9 "A" "hi" false stEmptyRoom =
      some (stEmptyRoom, [("A", .error "Must be in a room to send messages")]) :=
  ⟨reachable_stEmptyRoom, by decide, by decide, by decide⟩

/-- C10: `handleMessage` never lets a handler dereference a missing client
record: it is total (`isSome`, no `TypeError` escapes), although calling
`handleJoinRoom` or `handleChatMessage` directly with a `clientId` absent
from `clients` would crash in their error branches (`client.ws.send` after
`!client || ...`), which the early `if (!client) return;` of
`handleMessage` prevents. -/
theorem handlers_never_crash :
    ∀ (now : Nat) (cid : String) (st : ServerState),
      (∀ msg, (handleMessage now cid msg st).isSome) ∧
      (mfind cid st.clients = none → ∀ r m e,
        handleJoinRoom now cid r st = none ∧
        handleChatMessage now cid m e st = none) := by
  intro now cid st
  constructor
  · intro msg
    unfold handleMessage
    cases hc : mfind cid st.clients with
    | none => rfl
    | some c =>
      cases msg with
      | joinRoom r =>
        simp only [handleJoinRoom, hc]
        cases htr : truthy c.userId <;> simp [htr]
      | chatMessage m e =>
        simp only [handleChatMessage, hc]
        cases htr : truthy c.roomId <;> simp [htr]
      | register uid => rfl
      | leaveRoom => rfl
      | webrtc w t d => rfl
      | callUser t ct => rfl
      | callResponse t a => rfl
      | endCall t => rfl
      | unknown ty => rfl
  · intro hc r m e
    exact ⟨by simp [handleJoinRoom, hc], by simp [handleChatMessage, hc]⟩

/-- C10 witness: at the empty start state, dispatch is total while the raw
handlers would crash for the absent `"A"`. -/
theorem handlers_never_crash_witness :
    (handleMessage 0 "A" (.joinRoom "r1") initState).isSome ∧
    handleJoinRoom 0 "A" "r1" initState = none ∧
    handleChatMessage 0 "A" "hi" false initState = none :=
  ⟨(handlers_never_crash 0 "A" initState).1 _,
    ((handlers_never_crash 0 "A" initState).2 rfl "r1" "hi" false).1,
    ((handlers_never_crash 0 "A" initState).2 rfl "r1" "hi" false).2⟩

end Messenger

namespace MessengerCrypto

/-!
## The client-side crypto wrapper (`shared/crypto.js`)

`encryptMessage`/`decryptMessage` wrap the platform Web Crypto API:
`crypto.subtle.encrypt`/`decrypt` (AES-GCM), `TextEncoder`/`TextDecoder`
(UTF-8) and `btoa`/`atob` (base64 over binary strings).  Those built-ins
are not repository code, so they are modelled as the abstract operations
of a `SubtleCrypto` structure together with their documented contracts;
the repository's own logic — UTF-8 encode, random 12-byte IV, IV-prefix
concatenation, base64 framing, and the inverse slicing on decryption — is
embedded faithfully.  A byte is a `Nat < 256`; the helpers
`arrayBufferToBase64`/`base64ToArrayBuffer` build their intermediate
binary string from bytes via `String.fromCharCode`/`charCodeAt`, so the
binary string is identified with its byte list and folded into
`btoa`/`atob`.
-/

/-- Platform primitives with their documented contracts: AES-GCM
decryption inverts encryption under the same key and IV and produces
bytes, UTF-8 decoding inverts encoding, and `atob` inverts `btoa` on byte
lists. -/
structure SubtleCrypto where
  aesGcmEncrypt : List Nat → List Nat → List Nat → List Nat
  aesGcmDecrypt : List Nat → List Nat → List Nat → Option (List Nat)
  utf8Encode : String → List Nat
  utf8Decode : List Nat → String
  btoa : List Nat → String
  atob : String → List Nat
  aesGcmEncrypt_bytes : ∀ iv key data, (∀ x ∈ data, x < 256) →
    ∀ x ∈ aesGcmEncrypt iv key data, x < 256
  utf8Encode_bytes : ∀ s, ∀ x ∈ utf8Encode s, x < 256
  aes_roundtrip : ∀ iv key data,
    aesGcmDecrypt iv key (aesGcmEncrypt iv key data) = some data
  utf8_roundtrip : ∀ s, utf8Decode (utf8Encode s) = s
  base64_roundtrip : ∀ b, (∀ x ∈ b, x < 256) → atob (btoa b) = b

/-- `arrayBufferToBase64(buffer)`. -/
def arrayBufferToBase64 (p : SubtleCrypto) (buffer : List Nat) : String :=
  p.btoa buffer

/-- `base64ToArrayBuffer(base64)`. -/
def base64ToArrayBuffer (p : SubtleCrypto) (base64 : String) : List Nat :=
  p.atob base64

/-- `encryptMessage(message, key)`: UTF-8 encode, AES-GCM encrypt under a
random 12-byte IV (`iv`, threaded explicitly), prepend the IV, base64. -/
def encryptMessage (p : SubtleCrypto) (iv : List Nat) (message : String)
    (key : List Nat) : String :=
  let data := p.utf8Encode message
  let encryptedData := p.aesGcmEncrypt iv key data
  arrayBufferToBase64 p (iv ++ encryptedData)

/-- `decryptMessage(encryptedMessage, key)`: un-base64, split the 12-byte
IV off the front, AES-GCM decrypt, UTF-8 decode. -/
def decryptMessage (p : SubtleCrypto) (encryptedMessage : String)
    (key : List Nat) : Option String :=
  let data := base64ToArrayBuffer p encryptedMessage
  let iv := data.take 12
  let encryptedData := data.drop 12
  (p.aesGcmDecrypt iv key encryptedData).map p.utf8Decode

/-- C9: for every plaintext string (any length or script) and every key,
decrypting the encryption — under any platform satisfying the Web Crypto
contracts and any 12-byte IV — returns exactly the original plaintext. -/
theorem encrypt_decrypt_roundtrip :
    ∀ (p : SubtleCrypto) (iv key : List Nat) (message : String),
      iv.length = 12 → (∀ x ∈ iv, x < 256) →
      decryptMessage p (encryptMessage p iv message key) key = some message := by
  intro p iv key message hlen hbytes
  unfold decryptMessage encryptMessage arrayBufferToBase64 base64ToArrayBuffer
  have hball : ∀ x ∈ iv ++ p.aesGcmEncrypt iv key (p.utf8Encode message), x < 256 := by
    intro x hx
    rcases List.mem_append.mp hx with h | h
    · exact hbytes x h
    · exact p.aesGcmEncrypt_bytes iv key _ (p.utf8Encode_bytes message) x h
  rw [p.base64_roundtrip _ hball]
  simp only [List.take_left' hlen, List.drop_left' hlen, p.aes_roundtrip,
    Option.map_some', p.utf8_roundtrip]

/-- A concrete platform satisfying the contracts, used to witness the
round-trip theorem: a transparent cipher, a 3-bytes-per-scalar text
encoding, and a base64 pair that reads the byte list off the binary
string. -/
def encChar (c : Char) : List Nat :=
  [c.toNat / 65536, c.toNat / 256 % 256, c.toNat % 256]

def decChars : List Nat → List Char
  | b2 :: b1 :: b0 :: rest => Char.ofNat (b2 * 65536 + b1 * 256 + b0) :: decChars rest
  | _ => []

theorem char_toNat_lt (c : Char) : c.toNat < 1114112 := by
  rcases c.valid with h | h <;> · show c.val.toNat < 1114112; omega

theorem char_ofNat_toNat_of_lt {n : Nat} (h : n < 256) :
    (Char.ofNat n).toNat = n := by
  have hv : n.isValidChar := Or.inl (by omega)
  simp only [Char.ofNat, hv, dite_true, Char.ofNatAux, Char.toNat]
  rfl

theorem decChars_encChar (cs : List Char) :
    decChars (cs.flatMap encChar) = cs := by
  induction cs with
  | nil => rfl
  | cons c tl ih =>
    rw [List.flatMap_cons]
    show decChars (c.toNat / 65536 :: c.toNat / 256 % 256 :: c.toNat % 256 ::
      tl.flatMap encChar) = c :: tl
    rw [decChars]
    have harith : c.toNat / 65536 * 65536 + c.toNat / 256 % 256 * 256 +
        c.toNat % 256 = c.toNat := by
      omega
    rw [harith, Char.ofNat_toNat, ih]

theorem encChar_bytes (c : Char) : ∀ x ∈ encChar c, x < 256 := by
  intro x hx
  have hc := char_toNat_lt c
  simp only [encChar, List.mem_cons, List.not_mem_nil, or_false] at hx
  rcases hx with h | h | h <;> omega

def demoSubtle : SubtleCrypto where
  aesGcmEncrypt := fun _ _ data => data
  aesGcmDecrypt := fun _ _ data => some data
  utf8Encode := fun s => s.data.flatMap encChar
  utf8Decode := fun l => ⟨decChars l⟩
  btoa := fun b => ⟨b.map Char.ofNat⟩
  atob := fun s => s.data.map Char.toNat
  aesGcmEncrypt_bytes := fun _ _ _ h => h
  utf8Encode_bytes := by
    intro s x hx
    obtain ⟨c, -, hc⟩ := List.mem_flatMap.mp hx
    exact encChar_bytes c x hc
  aes_roundtrip := fun _ _ _ => rfl
  utf8_roundtrip := by
    intro s
    show String.mk (decChars (s.data.flatMap encChar)) = s
    rw [decChars_encChar]
  base64_roundtrip := by
    intro b hb
    show (String.mk (b.map Char.ofNat)).data.map Char.toNat = b
    rw [show (String.mk (b.map Char.ofNat)).data = b.map Char.ofNat from rfl,
      List.map_map]
    calc b.map (Char.toNat ∘ Char.ofNat) = b.map id :=
          List.map_congr_left (fun a ha => char_ofNat_toNat_of_lt (hb a ha))
      _ = b := List.map_id b

/-- C9 witness: a concrete 12-byte IV, key and message on `demoSubtle`. -/
theorem encrypt_decrypt_roundtrip_witness :
    (List.replicate 12 0).length = 12 ∧
    decryptMessage demoSubtle
      (encryptMessage demoSubtle (List.replicate 12 0) "hi, καλημέρα" [7, 7])
      [7, 7] = some "hi, καλημέρα" :=
  ⟨rfl, encrypt_decrypt_roundtrip demoSubtle (List.replicate 12 0) [7, 7]
    "hi, καλημέρα" rfl (by decide)⟩

end MessengerCrypto
